import Mathlib

/-!
Verification of the `rialight_util` flags core (`src/rialight_util/src/flags.rs`).
The repository file consists of the documentation of the flag-set type
generator together with a re-export of the generating macro; the generated
implementation itself is not present in the source tree. The definitions
below therefore embed the behaviour described by that documentation and by
the specification, as a shallow Lean model: flag-set values are newtypes over
a natural number interpreted as a fixed-width unsigned integer, and every
operation is a total Lean function (only the strict conversion returns an
`Except`).
-/

namespace RialightFlags

/-- Modelled from the spec: the definition-time declaration table of a
generated flag-set type (the generated implementation is missing from the
source tree). `width` is the bit width of the chosen unsigned integer
representation, `flags` the ordered mapping from flag name to bit pattern. -/
structure FlagsDecl where
  width : Nat
  flags : List (String × Nat)
deriving Repr

/-- Modelled from the spec: a well-formed declaration has every declared bit
pattern within the representation width. -/
def FlagsDecl.WF (d : FlagsDecl) : Prop :=
  ∀ p ∈ d.flags, p.2 < 2 ^ d.width

/-- Modelled from the spec: the all-flags mask, the bitwise union of every
declared value. -/
def FlagsDecl.allMask (d : FlagsDecl) : Nat :=
  d.flags.foldl (fun acc p => acc ||| p.2) 0

instance FlagsDecl.decWF (d : FlagsDecl) : Decidable d.WF :=
  inferInstanceAs (Decidable (∀ p ∈ d.flags, p.2 < 2 ^ d.width))

/-- The all-ones word of the representation width (`!0` at that width). -/
def FlagsDecl.ones (d : FlagsDecl) : Nat :=
  2 ^ d.width - 1

/-- Modelled from the spec: a flag-set value is a newtype holding a single
integer of the representation, interpreted as the set of bits currently set. -/
structure FlagSet where
  bits : Nat
deriving Repr, DecidableEq

/-- Modelled from the spec: the single error kind, raised only by strict
from-bits conversion; it carries the offending raw value. -/
inductive FlagsError where
  | unrecognizedBits (raw : Nat)
deriving Repr, DecidableEq

/-- Modelled from the spec: `empty()`, the value with underlying integer 0. -/
def FlagSet.empty : FlagSet := ⟨0⟩

/-- Modelled from the spec: `all()`, the value equal to the all-flags mask. -/
def FlagsDecl.allValue (d : FlagsDecl) : FlagSet := ⟨d.allMask⟩

/-- Modelled from the spec: strict `from_bits(raw)` succeeds with underlying
integer exactly `raw` only if every bit of `raw` is covered by the all-flags
mask, and otherwise fails with the unrecognized-bits condition. -/
def FlagsDecl.from_bits (d : FlagsDecl) (raw : Nat) : Except FlagsError FlagSet :=
  if raw &&& d.allMask = raw then .ok ⟨raw⟩ else .error (.unrecognizedBits raw)

/-- Modelled from the spec: `from_bits_truncate(raw)` always succeeds and
keeps only the bits covered by the all-flags mask. -/
def FlagsDecl.from_bits_truncate (d : FlagsDecl) (raw : Nat) : FlagSet :=
  ⟨raw &&& d.allMask⟩

/-- Modelled from the spec: `from_bits_unchecked(raw)` keeps all bits, even
those not corresponding to defined flags. -/
def FlagSet.from_bits_unchecked (raw : Nat) : FlagSet := ⟨raw⟩

/-- Modelled from the spec: `is_empty`, true iff no flags are stored. -/
def FlagSet.is_empty (v : FlagSet) : Bool := v.bits == 0

/-- Modelled from the spec: `is_all`, true iff the stored bits exactly equal
the all-flags mask. -/
def FlagsDecl.is_all (d : FlagsDecl) (v : FlagSet) : Bool := v.bits == d.allMask

/-- Modelled from the spec: `contains`, true iff every bit of `other` is
present in `self`. -/
def FlagSet.contains (v other : FlagSet) : Bool := v.bits &&& other.bits == other.bits

/-- Modelled from the spec: `intersects`, true iff some flag is common to
both values. -/
def FlagSet.intersects (v other : FlagSet) : Bool := v.bits &&& other.bits != 0

/-- Modelled from the spec: union (`BitOr`), bitwise OR. -/
def FlagSet.union (a b : FlagSet) : FlagSet := ⟨a.bits ||| b.bits⟩

/-- Modelled from the spec: intersection (`BitAnd`), bitwise AND. -/
def FlagSet.inter (a b : FlagSet) : FlagSet := ⟨a.bits &&& b.bits⟩

/-- Modelled from the spec: symmetric difference (`BitXor`), bitwise XOR. -/
def FlagSet.symmDiff (a b : FlagSet) : FlagSet := ⟨a.bits ^^^ b.bits⟩

/-- Modelled from the spec: set difference (`Sub`), `a & !b` at the
representation width. -/
def FlagsDecl.difference (d : FlagsDecl) (a b : FlagSet) : FlagSet :=
  ⟨a.bits &&& (d.ones ^^^ b.bits)⟩

/-- Modelled from the spec: set complement (`Not`), `!a` clipped to the
all-flags mask. -/
def FlagsDecl.complement (d : FlagsDecl) (a : FlagSet) : FlagSet :=
  ⟨(d.ones ^^^ a.bits) &&& d.allMask⟩

/-- Modelled from the spec: `insert`, the receiver becomes `receiver | mask`. -/
def FlagSet.insert (v m : FlagSet) : FlagSet := v.union m

/-- Modelled from the spec: `remove`, the receiver becomes `receiver & !mask`. -/
def FlagsDecl.remove (d : FlagsDecl) (v m : FlagSet) : FlagSet := d.difference v m

/-- Modelled from the spec: `toggle`, flips exactly the argument's bits. -/
def FlagSet.toggle (v m : FlagSet) : FlagSet := v.symmDiff m

/-- Modelled from the spec: `set(mask, on)` inserts when `on`, removes
otherwise. -/
def FlagsDecl.set (d : FlagsDecl) (v m : FlagSet) (value : Bool) : FlagSet :=
  if value then v.insert m else d.remove v m

/-- Modelled from the spec: the derived equality test of the generated
struct, operating purely on the underlying integer. -/
def FlagSet.beq (a b : FlagSet) : Bool := a.bits == b.bits

/-- Modelled from the spec: the derived ordering of the generated struct,
the numeric ordering of the underlying integer. -/
def FlagSet.le (a b : FlagSet) : Bool := a.bits ≤ b.bits

/-- Modelled from the spec: the derived hash of the generated struct hashes
the single underlying integer field through the integer hasher `h`. -/
def FlagSet.hashWith (h : Nat → Nat) (v : FlagSet) : Nat := h v.bits

/-- Modelled from the spec: the `Extend` operation, replacing the receiver
with the union of itself and every value of the iterated sequence. -/
def FlagSet.extend (v : FlagSet) (s : List FlagSet) : FlagSet :=
  s.foldl FlagSet.union v

/-- Modelled from the spec: the `FromIterator` (collect) operation, the union
of all values in the sequence starting from `empty()`. -/
def FlagSet.collect (s : List FlagSet) : FlagSet :=
  s.foldl FlagSet.union FlagSet.empty

/-- Lowercase hexadecimal rendering of a natural number, as used by the
debug formatting for residual bits. -/
def toHex (n : Nat) : String := (Nat.toDigits 16 n).asString

/-- Modelled from the spec: the debug-style textual formatting. It renders
the pipe-joined list of every declared non-zero flag name whose bits are
fully contained in the value, in declaration order, then the residual bits
not covered by the all-flags mask in hexadecimal if any remain, and an
explicit empty marker when nothing was rendered. -/
def FlagsDecl.debugFmt (d : FlagsDecl) (v : FlagSet) : String :=
  let names := (d.flags.filter
    (fun p => decide (p.2 ≠ 0) && (v.bits &&& p.2 == p.2))).map Prod.fst
  let extra := v.bits &&& (d.ones ^^^ d.allMask)
  let parts := if extra = 0 then names else names ++ ["0x" ++ toHex extra]
  if parts.isEmpty then "(empty)" else String.intercalate " | " parts

/-- The concrete example declaration from the documentation:
`A = 0b001`, `B = 0b010`, `C = 0b100`, `ABC = A|B|C` over `u32`. -/
def exampleDecl : FlagsDecl :=
  ⟨32, [("A", 1), ("B", 2), ("C", 4), ("ABC", 7)]⟩

/-- The zero-flags example declaration from the documentation:
`NONE = 0b0`, `SOME = 0b1` over `u32`. -/
def zeroDecl : FlagsDecl :=
  ⟨32, [("NONE", 0), ("SOME", 1)]⟩

/-! ## Helper lemmas -/

/-- Two flag-set values with the same underlying integer are the same value. -/
theorem FlagSet.eq_of_bits_eq {a b : FlagSet} (h : a.bits = b.bits) : a = b := by
  cases a; cases b; cases h; rfl

/-- The union of two flag-set values, componentwise. -/
theorem FlagSet.union_bits (a b : FlagSet) : (a.union b).bits = a.bits ||| b.bits := rfl

/-- `empty()` is a left identity of union. -/
theorem FlagSet.empty_union (a : FlagSet) : FlagSet.empty.union a = a := by
  cases a
  simp [FlagSet.union, FlagSet.empty]

/-- `empty()` is a right identity of union. -/
theorem FlagSet.union_empty (a : FlagSet) : a.union FlagSet.empty = a := by
  cases a
  simp [FlagSet.union, FlagSet.empty]

/-- Union of flag-set values is associative. -/
theorem FlagSet.union_assoc (a b c : FlagSet) :
    (a.union b).union c = a.union (b.union c) := by
  simp [FlagSet.union, Nat.lor_assoc]

/-- Folding union over a list from an arbitrary start is the start unioned
with the fold from `empty()`. -/
theorem FlagSet.foldl_union_eq (s : List FlagSet) (v : FlagSet) :
    s.foldl FlagSet.union v = v.union (s.foldl FlagSet.union FlagSet.empty) := by
  induction s generalizing v with
  | nil => exact (FlagSet.union_empty v).symm
  | cons a s ih =>
    simp only [List.foldl_cons]
    rw [ih (v.union a), ih (FlagSet.empty.union a), FlagSet.empty_union,
      FlagSet.union_assoc]

/-- A well-formed declaration's all-flags mask fits the representation
width. -/
theorem FlagsDecl.allMask_lt (d : FlagsDecl) (h : d.WF) :
    d.allMask < 2 ^ d.width := by
  have key : ∀ (l : List (String × Nat)) (acc : Nat), acc < 2 ^ d.width →
      (∀ p ∈ l, p.2 < 2 ^ d.width) →
      l.foldl (fun acc p => acc ||| p.2) acc < 2 ^ d.width := by
    intro l
    induction l with
    | nil => exact fun acc hacc _ => hacc
    | cons p l ih =>
      intro acc hacc hl
      exact ih _ (Nat.bitwise_lt_two_pow hacc (hl p (by simp)))
        (fun q hq => hl q (List.mem_cons_of_mem p hq))
  exact key d.flags 0 (Nat.two_pow_pos _) h

/-- Double full-width complement clipped to a mask that fits the width
recovers the original value clipped to the mask. -/
theorem double_complement_bits (w M x : Nat) (hM : M < 2 ^ w) :
    ((2 ^ w - 1) ^^^ (((2 ^ w - 1) ^^^ x) &&& M)) &&& M = x &&& M := by
  apply Nat.eq_of_testBit_eq
  intro i
  simp only [Nat.testBit_land, Nat.testBit_xor, Nat.testBit_two_pow_sub_one]
  by_cases hi : i < w
  · have hd : decide (i < w) = true := by simpa using hi
    rw [hd]
    cases x.testBit i <;> cases M.testBit i <;> rfl
  · have hMi : M.testBit i = false :=
      Nat.testBit_lt_two_pow
        (lt_of_lt_of_le hM (Nat.pow_le_pow_right (by norm_num) (Nat.le_of_not_lt hi)))
    rw [hMi]
    cases x.testBit i <;> cases decide (i < w) <;> rfl

/-! ## Claim theorems -/

/-- C1: for every raw integer `r`, `from_bits r` succeeds iff every bit of
`r` is covered by the all-flags mask; on success the returned value's
underlying integer is exactly `r`, and on failure the result is exactly the
single `unrecognizedBits` condition (the conversion is a pure function, so
there is no partial result and no side effect). -/
theorem flags_from_bits_spec (d : FlagsDecl) (r : Nat) :
    ((∃ v, d.from_bits r = .ok v) ↔ r &&& d.allMask = r)
    ∧ (∀ v, d.from_bits r = .ok v → v.bits = r)
    ∧ (r &&& d.allMask ≠ r →
        d.from_bits r = .error (.unrecognizedBits r)) := by
  unfold FlagsDecl.from_bits
  by_cases h : r &&& d.allMask = r <;> simp [h]

theorem flags_from_bits_spec_witness :
    exampleDecl.from_bits 8 = .error (.unrecognizedBits 8)
    ∧ (∃ v, exampleDecl.from_bits 5 = .ok v) :=
  ⟨(flags_from_bits_spec exampleDecl 8).2.2 (by decide),
   (flags_from_bits_spec exampleDecl 5).1.mpr (by decide)⟩

/-- C2: the complement of any value `a` (also out-of-mask ones) has bits
`~a & all_flags_mask`, hence never holds bits outside the declared flags;
double complement yields the clipped original and round-trips exactly when
`a` already lies within the mask. -/
theorem flags_complement_spec (d : FlagsDecl) (a : FlagSet) (h : d.WF) :
    (d.complement a).bits = (d.ones ^^^ a.bits) &&& d.allMask
    ∧ (d.complement a).bits &&& d.allMask = (d.complement a).bits
    ∧ d.complement (d.complement a) = ⟨a.bits &&& d.allMask⟩
    ∧ (a.bits &&& d.allMask = a.bits → d.complement (d.complement a) = a) := by
  have hcc : d.complement (d.complement a) = ⟨a.bits &&& d.allMask⟩ := by
    apply FlagSet.eq_of_bits_eq
    exact double_complement_bits d.width d.allMask a.bits (d.allMask_lt h)
  refine ⟨rfl, ?_, hcc, fun ha => ?_⟩
  · show ((d.ones ^^^ a.bits) &&& d.allMask) &&& d.allMask
      = (d.ones ^^^ a.bits) &&& d.allMask
    rw [Nat.land_assoc, Nat.and_self]
  · rw [hcc, ha]

theorem flags_complement_spec_witness :
    exampleDecl.complement (exampleDecl.complement ⟨9⟩) = ⟨1⟩
    ∧ exampleDecl.complement (exampleDecl.complement ⟨5⟩) = ⟨5⟩ :=
  ⟨by rw [(flags_complement_spec exampleDecl ⟨9⟩ (by decide)).2.2.1]; decide,
   (flags_complement_spec exampleDecl ⟨5⟩ (by decide)).2.2.2 (by decide)⟩

/-- C3: `contains value other` is true iff `value & other == other`; in any
declaration holding a zero-valued flag `NONE` (modelled as the value with
bits 0), every value contains `NONE`, while `NONE` itself still tests
empty. -/
theorem flags_contains_spec (d : FlagsDecl) (v other : FlagSet)
    (_hNONE : ("NONE", 0) ∈ d.flags) :
    (v.contains other = true ↔ v.bits &&& other.bits = other.bits)
    ∧ v.contains ⟨0⟩ = true
    ∧ FlagSet.is_empty ⟨0⟩ = true := by
  refine ⟨?_, ?_, rfl⟩
  · simp [FlagSet.contains]
  · simp [FlagSet.contains]

theorem flags_contains_spec_witness :
    FlagSet.contains ⟨0⟩ ⟨0⟩ = true
    ∧ FlagSet.contains ⟨1⟩ ⟨0⟩ = true
    ∧ FlagSet.is_empty ⟨0⟩ = true :=
  ⟨(flags_contains_spec zeroDecl ⟨0⟩ ⟨0⟩ (by decide)).2.1,
   (flags_contains_spec zeroDecl ⟨1⟩ ⟨0⟩ (by decide)).2.1,
   (flags_contains_spec zeroDecl ⟨0⟩ ⟨0⟩ (by decide)).2.2⟩

/-- C4: `from_bits_truncate r` always succeeds with underlying integer
`r & all_flags_mask`; for `r` with bits outside the mask, `from_bits r`
fails while the truncating conversion still yields `r & all_flags_mask`. -/
theorem flags_from_bits_truncate_spec (d : FlagsDecl) (r : Nat) :
    (d.from_bits_truncate r).bits = r &&& d.allMask
    ∧ (r &&& d.allMask ≠ r →
        d.from_bits r = .error (.unrecognizedBits r)
        ∧ (d.from_bits_truncate r).bits = r &&& d.allMask) := by
  refine ⟨rfl, fun h => ⟨?_, rfl⟩⟩
  unfold FlagsDecl.from_bits
  simp [h]

theorem flags_from_bits_truncate_spec_witness :
    (exampleDecl.from_bits_truncate 9).bits = 1
    ∧ exampleDecl.from_bits 9 = .error (.unrecognizedBits 9) := by
  refine ⟨?_, ((flags_from_bits_truncate_spec exampleDecl 9).2 (by decide)).1⟩
  rw [(flags_from_bits_truncate_spec exampleDecl 9).1]
  decide

/-- C5: `is_all value` is true iff `value.bits() == all_flags_mask` exactly;
a value built by `from_bits_unchecked` whose bits are a strict superset of
the mask is not `is_all`. -/
theorem flags_is_all_spec (d : FlagsDecl) (v : FlagSet) :
    (d.is_all v = true ↔ v.bits = d.allMask)
    ∧ (∀ r, d.allMask &&& r = d.allMask → r ≠ d.allMask →
        d.is_all (FlagSet.from_bits_unchecked r) = false) := by
  constructor
  · simp [FlagsDecl.is_all]
  · intro r _ hr
    simpa [FlagsDecl.is_all, FlagSet.from_bits_unchecked] using hr

theorem flags_is_all_spec_witness :
    exampleDecl.is_all ⟨7⟩ = true
    ∧ exampleDecl.is_all (FlagSet.from_bits_unchecked 15) = false :=
  ⟨(flags_is_all_spec exampleDecl ⟨7⟩).1.mpr (by decide),
   (flags_is_all_spec exampleDecl ⟨7⟩).2 15 (by decide) (by decide)⟩

/-- C6: the debug-style formatting renders the pipe-joined names of the
declared non-zero flags contained in the value in declaration order, appends
the residual bits outside the all-flags mask in hexadecimal when present,
and renders the empty marker when nothing matches; in the documented example
declaration, formatting `A | B` yields `"A | B"`. -/
theorem flags_debug_fmt_spec :
    (∀ (d : FlagsDecl) (v : FlagSet) (names : List String),
      names = (d.flags.filter
        (fun p => decide (p.2 ≠ 0) && (v.bits &&& p.2 == p.2))).map Prod.fst →
      ((v.bits &&& (d.ones ^^^ d.allMask) = 0 → names ≠ [] →
          d.debugFmt v = String.intercalate " | " names)
        ∧ (v.bits &&& (d.ones ^^^ d.allMask) = 0 → names = [] →
          d.debugFmt v = "(empty)")
        ∧ (v.bits &&& (d.ones ^^^ d.allMask) ≠ 0 →
          d.debugFmt v = String.intercalate " | "
            (names ++ ["0x" ++ toHex (v.bits &&& (d.ones ^^^ d.allMask))]))))
    ∧ exampleDecl.debugFmt ⟨3⟩ = "A | B"
    ∧ exampleDecl.debugFmt ⟨0⟩ = "(empty)" := by
  refine ⟨?_, by decide, by decide⟩
  intro d v names hnames
  have hfmt : d.debugFmt v
      = (if (if v.bits &&& (d.ones ^^^ d.allMask) = 0 then names
            else names ++ ["0x" ++ toHex (v.bits &&& (d.ones ^^^ d.allMask))]).isEmpty
          then "(empty)"
          else String.intercalate " | "
            (if v.bits &&& (d.ones ^^^ d.allMask) = 0 then names
              else names ++ ["0x" ++ toHex (v.bits &&& (d.ones ^^^ d.allMask))])) := by
    rw [hnames]
    rfl
  refine ⟨fun h0 hne => ?_, fun h0 he => ?_, fun hx => ?_⟩
  · rw [hfmt]
    simp [h0, hne]
  · rw [hfmt]
    simp [h0, he]
  · rw [hfmt]
    simp [hx]

theorem flags_debug_fmt_spec_witness :
    (⟨32, [("A", 1)]⟩ : FlagsDecl).debugFmt ⟨9⟩ = "A | 0x8" := by
  have h := (flags_debug_fmt_spec.1 ⟨32, [("A", 1)]⟩ ⟨9⟩ ["A"]
    (by decide)).2.2 (by decide)
  rw [h]
  decide

/-- C7: the collect-from-iterable operation is the union of all values in
the sequence, starting from `empty()` on the empty sequence; in particular
collecting `[A, B, empty()]` yields `A | B`. -/
theorem flags_collect_spec :
    FlagSet.collect [] = FlagSet.empty
    ∧ (∀ (x : FlagSet) (s : List FlagSet),
        FlagSet.collect (x :: s) = x.union (FlagSet.collect s))
    ∧ FlagSet.collect [⟨1⟩, ⟨2⟩, FlagSet.empty] = FlagSet.union ⟨1⟩ ⟨2⟩ := by
  refine ⟨rfl, fun x s => ?_, by decide⟩
  show (x :: s).foldl FlagSet.union FlagSet.empty = _
  simp only [List.foldl_cons]
  rw [FlagSet.foldl_union_eq, FlagSet.empty_union]
  rfl

/-- C8: derived equality is equality of the underlying integers, the derived
ordering is the (total) numeric order of the underlying integers, and the
derived hash is a function of the underlying integer alone, so equal-bit
values are indistinguishable however they were constructed. -/
theorem flags_eq_ord_hash_spec (a b : FlagSet) :
    (a.beq b = true ↔ a.bits = b.bits)
    ∧ (a.le b = true ↔ a.bits ≤ b.bits)
    ∧ (a.le b = true ∨ b.le a = true)
    ∧ (a.bits = b.bits → a = b)
    ∧ (∀ h : Nat → Nat, a.bits = b.bits → a.hashWith h = b.hashWith h) := by
  refine ⟨?_, ?_, ?_, FlagSet.eq_of_bits_eq, fun h hb => ?_⟩
  · simp [FlagSet.beq]
  · simp [FlagSet.le]
  · simp only [FlagSet.le, decide_eq_true_eq]
    exact Nat.le_total a.bits b.bits
  · simp [FlagSet.hashWith, hb]

theorem flags_eq_ord_hash_spec_witness :
    FlagSet.beq ⟨3⟩ ⟨3⟩ = true ∧ (⟨3⟩ : FlagSet) = ⟨3⟩ :=
  ⟨(flags_eq_ord_hash_spec ⟨3⟩ ⟨3⟩).1.mpr rfl,
   (flags_eq_ord_hash_spec ⟨3⟩ ⟨3⟩).2.2.2.1 rfl⟩

/-- C9: every operation other than strict `from_bits` is a total function:
on every raw input, including out-of-mask values built by
`from_bits_unchecked`, the queries, the set algebra, the in-place update
forms, the comparison family (derived equality, ordering and hashing) and
the formatting return the defined result of their bitwise specification,
with no failure branch. -/
theorem flags_totality_spec (d : FlagsDecl) (r s : Nat) :
    ((FlagSet.from_bits_unchecked r).is_empty = true ↔ r = 0)
    ∧ (d.is_all (FlagSet.from_bits_unchecked r) = true ↔ r = d.allMask)
    ∧ ((FlagSet.from_bits_unchecked r).contains
        (FlagSet.from_bits_unchecked s) = true ↔ r &&& s = s)
    ∧ ((FlagSet.from_bits_unchecked r).intersects
        (FlagSet.from_bits_unchecked s) = true ↔ r &&& s ≠ 0)
    ∧ ((FlagSet.from_bits_unchecked r).union
        (FlagSet.from_bits_unchecked s)).bits = r ||| s
    ∧ ((FlagSet.from_bits_unchecked r).inter
        (FlagSet.from_bits_unchecked s)).bits = r &&& s
    ∧ ((FlagSet.from_bits_unchecked r).symmDiff
        (FlagSet.from_bits_unchecked s)).bits = r ^^^ s
    ∧ (d.difference (FlagSet.from_bits_unchecked r)
        (FlagSet.from_bits_unchecked s)).bits = r &&& (d.ones ^^^ s)
    ∧ ((FlagSet.from_bits_unchecked r).insert
        (FlagSet.from_bits_unchecked s)).bits = r ||| s
    ∧ (d.remove (FlagSet.from_bits_unchecked r)
        (FlagSet.from_bits_unchecked s)).bits = r &&& (d.ones ^^^ s)
    ∧ ((FlagSet.from_bits_unchecked r).toggle
        (FlagSet.from_bits_unchecked s)).bits = r ^^^ s
    ∧ (∀ c : Bool, d.set (FlagSet.from_bits_unchecked r)
        (FlagSet.from_bits_unchecked s) c
        = if c then (FlagSet.from_bits_unchecked r).insert
            (FlagSet.from_bits_unchecked s)
          else d.remove (FlagSet.from_bits_unchecked r)
            (FlagSet.from_bits_unchecked s))
    ∧ ((d.complement (FlagSet.from_bits_unchecked r)).bits &&& d.allMask
        = (d.complement (FlagSet.from_bits_unchecked r)).bits)
    ∧ (∃ out : String, d.debugFmt (FlagSet.from_bits_unchecked r) = out)
    ∧ ((FlagSet.from_bits_unchecked r).beq
        (FlagSet.from_bits_unchecked s) = true ↔ r = s)
    ∧ ((FlagSet.from_bits_unchecked r).le
        (FlagSet.from_bits_unchecked s) = true ↔ r ≤ s)
    ∧ ((FlagSet.from_bits_unchecked r).le
          (FlagSet.from_bits_unchecked s) = true
        ∨ (FlagSet.from_bits_unchecked s).le
          (FlagSet.from_bits_unchecked r) = true)
    ∧ (∀ h : Nat → Nat,
        (FlagSet.from_bits_unchecked r).hashWith h = h r) := by
  refine ⟨?_, ?_, ?_, ?_, rfl, rfl, rfl, rfl, rfl, rfl, rfl,
    fun c => rfl, ?_, ⟨_, rfl⟩, ?_, ?_, ?_, fun h => rfl⟩
  · simp [FlagSet.is_empty, FlagSet.from_bits_unchecked]
  · simp [FlagsDecl.is_all, FlagSet.from_bits_unchecked]
  · simp [FlagSet.contains, FlagSet.from_bits_unchecked]
  · simp [FlagSet.intersects, FlagSet.from_bits_unchecked]
  · show ((d.ones ^^^ r) &&& d.allMask) &&& d.allMask
      = (d.ones ^^^ r) &&& d.allMask
    rw [Nat.land_assoc, Nat.and_self]
  · simp [FlagSet.beq, FlagSet.from_bits_unchecked]
  · simp [FlagSet.le, FlagSet.from_bits_unchecked]
  · simp only [FlagSet.le, FlagSet.from_bits_unchecked, decide_eq_true_eq]
    exact Nat.le_total r s

theorem flags_totality_spec_witness :
    (FlagSet.from_bits_unchecked 9).contains (FlagSet.from_bits_unchecked 8)
      = true
    ∧ ((exampleDecl.complement (FlagSet.from_bits_unchecked 9)).bits
          &&& exampleDecl.allMask
        = (exampleDecl.complement (FlagSet.from_bits_unchecked 9)).bits)
    ∧ (FlagSet.from_bits_unchecked 9).beq (FlagSet.from_bits_unchecked 9)
        = true
    ∧ (FlagSet.from_bits_unchecked 8).le (FlagSet.from_bits_unchecked 9)
        = true := by
  obtain ⟨-, -, h3, -, -, -, -, -, -, -, -, -, h13, -, -, -, -, -⟩ :=
    flags_totality_spec exampleDecl 9 8
  obtain ⟨-, -, -, -, -, -, -, -, -, -, -, -, -, -, g15, -, -, -⟩ :=
    flags_totality_spec exampleDecl 9 9
  obtain ⟨-, -, -, -, -, -, -, -, -, -, -, -, -, -, -, k16, -, -⟩ :=
    flags_totality_spec exampleDecl 8 9
  exact ⟨h3.mpr (by decide), h13, g15.mpr rfl, k16.mpr (by decide)⟩

/-- C10: extending a value `v` with a finite sequence `s` yields `v` unioned
with the union of all elements of `s`; extending with the empty sequence
leaves `v` unchanged. -/
theorem flags_extend_spec (v : FlagSet) (s : List FlagSet) :
    v.extend s = v.union (FlagSet.collect s) ∧ v.extend [] = v := by
  exact ⟨FlagSet.foldl_union_eq s v, rfl⟩

end RialightFlags
